import Mathlib

/-!
Shallow embedding of the `kiss-tnc` package (`src/index.js`), a NodeJS
implementation of the KISS TNC framing protocol, together with proofs about
the claims of the specification.  Bytes are modelled as `Nat`; JavaScript
`Buffer`s and byte arrays become `List Nat`.  Coercion of array entries to
unsigned bytes by `Buffer.from` is modelled with `% 256` where values can
exceed 255.
-/

namespace KissTnc

/-- Frame End byte (`const FEND = 192`, 0xC0). -/
def FEND : Nat := 192

/-- Frame Escape byte (`const FESC = 219`, 0xDB). -/
def FESC : Nat := 219

/-- Transposed Frame End byte (`const TFEND = 220`, 0xDC). -/
def TFEND : Nat := 220

/-- Transposed Frame Escape byte (`const TFESC = 221`, 0xDD). -/
def TFESC : Nat := 221

/-- The `replacementMap` object: `{ [TFEND]: FEND, [TFESC]: FESC }`.
`none` models a lookup of a key that is not present (JS `undefined`,
which is falsy in the `if (replacement)` test of `interpretMessage`). -/
def replacementMap (b : Nat) : Option Nat :=
  if b = TFEND then some FEND else if b = TFESC then some FESC else none

/-- The `kissEscape` function.  The JS loop walks the array with index `i`;
on a `FEND` or `FESC` it splices in the two-byte escape sequence and advances
`i` by 2 (past both inserted bytes), otherwise it advances by 1.  Since the
loop never re-examines inserted bytes, it is exactly this structural
recursion. -/
def kissEscape : List Nat → List Nat
  | [] => []
  | b :: rest =>
    if b = FEND then FESC :: TFEND :: kissEscape rest
    else if b = FESC then FESC :: TFESC :: kissEscape rest
    else b :: kissEscape rest

/-- The escape-replacement loop of `KISSReceiver.interpretMessage`
(lines 94-107 of `src/index.js`).  Each iteration finds the FIRST occurrence
of `FESC` in `content` (`content.indexOf(FESC)`; here the first occurrence is
exposed by `dropWhile`, with `takeWhile` the FESC-free prefix before it).  If
the byte after it has a replacement, `content.splice(escapeIndex, 2,
replacement)` substitutes the pair by the replacement byte; otherwise
`content.splice(escapeIndex, 2)` deletes the pair (deleting only the `FESC`
itself when it is the final byte).  The loop then searches again FROM THE
START of the modified array.  Faithfully translated, including the re-scan
from index 0. -/
def unescapeLoop (content : List Nat) : List Nat :=
  match hrest : content.dropWhile (fun b => decide (b ≠ FESC)) with
  | [] => content
  | _ :: tail =>
    match tail with
    | [] => unescapeLoop (content.takeWhile (fun b => decide (b ≠ FESC)))
    | x :: rest2 =>
      match replacementMap x with
      | some r => unescapeLoop (content.takeWhile (fun b => decide (b ≠ FESC)) ++ r :: rest2)
      | none => unescapeLoop (content.takeWhile (fun b => decide (b ≠ FESC)) ++ rest2)
termination_by content.length
decreasing_by
  all_goals
    have hsplit := List.takeWhile_append_dropWhile (fun b => decide (b ≠ FESC)) content
    rw [hrest] at hsplit
    have hlen := congrArg List.length hsplit
    simp at hlen ⊢
    omega

/-! The `KISSReceiver` transform stream. -/

/-- Construction options of `KISSReceiver` (`opts.emitCommandByte`,
`opts.emitObject`); `!!` coercion of the JS truthiness is modelled by using
`Bool` directly. -/
structure ReceiverOpts where
  emitCommandByte : Bool := false
  emitObject : Bool := false

/-- The fields a constructed `KISSReceiver` carries:
`super({ readableObjectMode: !!emitObject })` and
`this.emitCommandByte = !!emitCommandByte`. -/
structure Receiver where
  readableObjectMode : Bool
  emitCommandByte : Bool

/-- The `KISSReceiver` constructor wiring. -/
def mkReceiver (opts : ReceiverOpts) : Receiver :=
  { readableObjectMode := opts.emitObject, emitCommandByte := opts.emitCommandByte }

/-- A value pushed downstream by the receiver: either the object
`{ portIndex, data }` (object mode) or a plain `Buffer`. -/
inductive Emitted where
  | obj (portIndex : Nat) (data : List Nat)
  | buf (bytes : List Nat)
deriving DecidableEq

/-- `KISSReceiver.interpretMessage` (lines 92-121).  The destructuring
`const [commandByte, ...content] = message` makes `commandByte` the head
(JS `undefined` on an empty message behaves as 0 in `>> 4` and in
`Buffer.from`, modelled by `headD 0`) and `content` the tail; the
escape-replacement loop is `unescapeLoop`.  Object mode is checked before
`emitCommandByte`. -/
def interpretMessage (r : Receiver) (message : List Nat) : Emitted :=
  let commandByte := message.headD 0
  let content := unescapeLoop message.tail
  if r.readableObjectMode then .obj (commandByte / 16) content
  else if r.emitCommandByte then .buf (commandByte :: content)
  else .buf content

/-- The `while (fendIndex !== -1)` loop of `KISSReceiver._transform`
(lines 136-155), plus the trailing `if (received.length > 0)
this.unterminatedMessage = received` that follows it.  Each iteration slices
off the run before the first `FEND` (`received.slice(0, fendIndex)`, exposed
here by `takeWhile`/`dropWhile`) and the remainder after it; a non-empty run
is pushed (prefixed by a pending `unterminatedMessage`, which is then
cleared), an empty run is skipped.  When no `FEND` remains, a non-empty
remainder REPLACES `unterminatedMessage`; an empty remainder leaves the field
untouched. -/
def runLoop (unterm : Option (List Nat)) (received : List Nat) :
    List (List Nat) × Option (List Nat) :=
  match hrest : received.dropWhile (fun b => decide (b ≠ FEND)) with
  | [] => ([], if received.isEmpty then unterm else some received)
  | _ :: post =>
    let pre := received.takeWhile (fun b => decide (b ≠ FEND))
    if pre.isEmpty then runLoop unterm post
    else
      match unterm with
      | some u =>
        ((u ++ pre) :: (runLoop none post).1, (runLoop none post).2)
      | none => (pre :: (runLoop none post).1, (runLoop none post).2)
termination_by received.length
decreasing_by
  all_goals
    have hsplit := List.takeWhile_append_dropWhile (fun b => decide (b ≠ FEND)) received
    rw [hrest] at hsplit
    have hlen := congrArg List.length hsplit
    simp at hlen ⊢
    omega

/-- One call of `KISSReceiver._transform` (lines 123-162), producing the raw
(uninterpreted) messages in push order and the new `unterminatedMessage`.
The special case at line 128 fires when the chunk starts with `FEND` while
`this.unterminatedMessage` is set (JS truthiness of an array is `isSome`
here): the pending buffer is pushed first and cleared before the loop runs
over the whole chunk. -/
def transformMsgs (unterm : Option (List Nat)) (chunk : List Nat) :
    List (List Nat) × Option (List Nat) :=
  match unterm with
  | some u =>
    if chunk.head? = some FEND then
      ((u :: (runLoop none chunk).1), (runLoop none chunk).2)
    else runLoop (some u) chunk
  | none => runLoop none chunk

/-- One `_transform` call including interpretation: the stream values pushed
by `messages.forEach(message => this.push(this.interpretMessage(message)))`. -/
def transformStep (r : Receiver) (unterm : Option (List Nat)) (chunk : List Nat) :
    List Emitted × Option (List Nat) :=
  ((transformMsgs unterm chunk).1.map (interpretMessage r), (transformMsgs unterm chunk).2)

/-- Feeding a sequence of chunks to a fresh receiver (initial
`unterminatedMessage` is `undefined`, i.e. `none`), collecting every value
pushed across the `_transform` calls. -/
def receiverRun (r : Receiver) (chunks : List (List Nat)) :
    List Emitted × Option (List Nat) :=
  chunks.foldl
    (fun acc chunk =>
      ((acc.1 ++ (transformStep r acc.2 chunk).1), (transformStep r acc.2 chunk).2))
    ([], none)

/-- `KISSReceiver._flush` (lines 164-178).  When `unterminatedMessage` is
set, one final value is pushed; the first buffered byte is used as the
command byte, but the remaining bytes are pushed verbatim — `_flush` does
NOT run the escape-replacement loop of `interpretMessage`. -/
def flushStep (r : Receiver) (unterm : Option (List Nat)) : List Emitted :=
  match unterm with
  | none => []
  | some u =>
    if r.readableObjectMode then [.obj (u.headD 0 / 16) u.tail]
    else if r.emitCommandByte then [.buf u]
    else [.buf u.tail]

/-! The `KISSSender` transform stream. -/

/-- The string `const ports = '0123456789ABCDEF'`, as its characters. -/
def ports : List Char :=
  ['0', '1', '2', '3', '4', '5', '6', '7', '8', '9', 'A', 'B', 'C', 'D', 'E', 'F']

/-- Value of a single hexadecimal digit character, as `parseInt(-, 16)`
reads it. -/
def hexDigitVal (c : Char) : Nat :=
  if '0' ≤ c ∧ c ≤ '9' then c.toNat - 48
  else if 'A' ≤ c ∧ c ≤ 'F' then c.toNat - 55
  else 0

/-- `parseInt` of a two-character hexadecimal string, the only form the
source uses to assemble command bytes from the port hex digit and the
command-kind digit. -/
def parseHex2 (c1 c2 : Char) : Nat := 16 * hexDigitVal c1 + hexDigitVal c2

/-- The possible values of `opts.portIndex` as seen by the constructor:
absent (`undefined`), an integer number, or a (finite, non-zero)
non-integer number such as `1.5`.  (`NaN`, strings and other exotic values
are outside the model.) -/
inductive JSPortValue where
  | absent
  | intVal (n : Int)
  | nonIntNum
deriving DecidableEq

/-- The expression `opts.portIndex || 0` (line 199): `undefined` and `0`
are falsy and give `0`; every other modelled value is truthy and passes
through unchanged (an integer `0` also maps to `0`, so the integer case is
the identity). -/
def orZero : JSPortValue → JSPortValue
  | .absent => .intVal 0
  | .intVal n => .intVal n
  | .nonIntNum => .nonIntNum

/-- The `KISSSender` constructor checks on `portIndex` (lines 196-209):
first `Number.isInteger`, then the 0-15 range check; `.ok` carries the
accepted port index. -/
def senderConstruct (v : JSPortValue) : Except String Nat :=
  match orZero v with
  | .intVal n =>
    if n < 0 ∨ 15 < n then
      .error "A KISS sending Stream requires a portIndex config property between 0 and 15 inclusive"
    else .ok n.toNat
  | .absent =>
    .error "Cannot create a KISS sending Stream without a portIndex config property"
  | .nonIntNum =>
    .error "Cannot create a KISS sending Stream without a portIndex config property"

/-- A command byte built as `parseInt(ports[portIndex] + digit, 16)`:
high nibble the port, low nibble the command kind digit. -/
def commandByteFor (p : Nat) (digit : Char) : Nat :=
  parseHex2 (ports.getD p '0') digit

/-- The frame builder returned by `getCommandBuilder` (lines 31-35):
`Buffer.from([FEND, commandBytes[command], ...values, FEND])`.
`Buffer.from` coerces each array entry to an unsigned byte, modelled by
`% 256` on the value bytes. -/
def outboundCommand (p : Nat) (digit : Char) (values : List Nat) : List Nat :=
  FEND :: commandByteFor p digit :: (values.map (fun v => v % 256) ++ [FEND])

/-- The optional configuration fields of `KISSSender` other than
`portIndex`.  `none` models a property not present on `opts`
(`Object.hasOwn` false).  `hardware` is modelled as the byte list that
`Buffer.from` produces from the supplied string or array (the falsy empty
string is outside the model; an empty array is truthy in JS and is
modelled by `some []`). -/
structure SenderOpts where
  fullDuplex : Option Bool := none
  hardware : Option (List Nat) := none
  persistence : Option Nat := none
  slotTime : Option Nat := none
  txDelay : Option Nat := none
  txTail : Option Nat := none

/-- The `properties.forEach` walk of the `KISSSender` constructor
(lines 215-233), in the fixed order `fullDuplex`, `hardware`,
`persistence`, `slotTime`, `txDelay`, `txTail`.  Each present property is
stored; the three time fields become `!!value && value / 10` (so `0` turns
into `false`); a falsy stored value is not transmitted, a truthy one is
pushed as one `outboundCommand` frame.  JS `value / 10` followed by
`Buffer.from` truncation equals `Nat` division for the natural-number
values modelled here.  `fullDuplex: true` transmits the single value byte
`1` (`Buffer.from([true])`). -/
def initFrames (p : Nat) (o : SenderOpts) : List (List Nat) :=
  (match o.fullDuplex with
   | some fd => if fd then [outboundCommand p '5' [1]] else []
   | none => []) ++
  (match o.hardware with
   | some hw => [outboundCommand p '6' hw]
   | none => []) ++
  (match o.persistence with
   | some n => if n ≠ 0 then [outboundCommand p '2' [n]] else []
   | none => []) ++
  (match o.slotTime with
   | some t => if t ≠ 0 then [outboundCommand p '3' [t / 10]] else []
   | none => []) ++
  (match o.txDelay with
   | some t => if t ≠ 0 then [outboundCommand p '1' [t / 10]] else []
   | none => []) ++
  (match o.txTail with
   | some t => if t ≠ 0 then [outboundCommand p '4' [t / 10]] else []
   | none => [])

/-- The whole constructor: the `portIndex` checks, then the initialization
frames pushed synchronously during construction. -/
def kissSenderInit (v : JSPortValue) (o : SenderOpts) :
    Except String (Nat × List (List Nat)) :=
  match senderConstruct v with
  | .error e => .error e
  | .ok p => .ok (p, initFrames p o)

/-- `this.dataStart = Buffer.from([FEND, parseInt(ports[portIndex] + '0', 16)])`
(line 210). -/
def dataStart (p : Nat) : List Nat := [FEND, parseHex2 (ports.getD p '0') '0']

/-- `this.dataEnd = Buffer.from([FEND])` (line 211). -/
def dataEnd : List Nat := [FEND]

/-- `KISSSender._transform` (lines 241-247): one write produces the single
frame `Buffer.concat([this.dataStart, kissEscape(chunk), this.dataEnd])`. -/
def senderTransform (p : Nat) (chunk : List Nat) : List Nat :=
  dataStart p ++ kissEscape chunk ++ dataEnd

/-! Basic facts about the escape-replacement loop. -/

theorem dropWhile_ne_nil (c : Nat) (l : List Nat) (h : c ∉ l) :
    l.dropWhile (fun b => decide (b ≠ c)) = [] := by
  rw [List.dropWhile_eq_nil_iff]
  intro x hx
  simp
  exact fun he => h (he ▸ hx)

theorem takeWhile_ne_self (c : Nat) (l : List Nat) (h : c ∉ l) :
    l.takeWhile (fun b => decide (b ≠ c)) = l := by
  rw [List.takeWhile_eq_self_iff]
  intro x hx
  simp
  exact fun he => h (he ▸ hx)

theorem dropWhile_ne_point (c : Nat) (q x : List Nat) (h : c ∉ q) :
    (q ++ c :: x).dropWhile (fun b => decide (b ≠ c)) = c :: x := by
  rw [List.dropWhile_append_of_pos]
  · rw [List.dropWhile_cons_of_neg]
    simp
  · intro a ha
    simp
    exact fun he => h (he ▸ ha)

theorem takeWhile_ne_point (c : Nat) (q x : List Nat) (h : c ∉ q) :
    (q ++ c :: x).takeWhile (fun b => decide (b ≠ c)) = q := by
  rw [List.takeWhile_append_of_pos]
  · rw [List.takeWhile_cons_of_neg]
    · simp
    · simp
  · intro a ha
    simp
    exact fun he => h (he ▸ ha)

theorem dropWhile_head_false {p : Nat → Bool} {l : List Nat} {head : Nat} {tail : List Nat}
    (h : l.dropWhile p = head :: tail) : p head = false := by
  induction l with
  | nil => simp at h
  | cons a rest ih =>
    by_cases hp : p a
    · rw [List.dropWhile_cons_of_pos hp] at h
      exact ih h
    · rw [List.dropWhile_cons_of_neg hp] at h
      cases h
      simpa using hp

/-- Decomposition of a list containing the byte `c` around its first
occurrence of `c`. -/
theorem first_byte_split (c : Nat) (l : List Nat) (hmem : c ∈ l) :
    ∃ t d, l = t ++ c :: d ∧ c ∉ t := by
  have hsplit := List.takeWhile_append_dropWhile (fun b => decide (b ≠ c)) l
  cases hd : l.dropWhile (fun b => decide (b ≠ c)) with
  | nil =>
    exfalso
    rw [hd] at hsplit
    simp only [List.append_nil] at hsplit
    apply absurd hmem
    rw [← hsplit]
    intro hmt
    have := List.mem_takeWhile_imp hmt
    simp at this
  | cons head tail =>
    have hh : head = c := by simpa using dropWhile_head_false hd
    refine ⟨l.takeWhile (fun b => decide (b ≠ c)), tail, ?_, ?_⟩
    · rw [hd] at hsplit
      subst hh
      exact hsplit.symm
    · intro hmt
      have := List.mem_takeWhile_imp hmt
      simp at this

theorem unescapeLoop_of_no_fesc (l : List Nat) (h : FESC ∉ l) : unescapeLoop l = l := by
  have hd := dropWhile_ne_nil FESC l h
  rw [unescapeLoop]
  split
  · rfl
  · rename_i head tail heq
    rw [hd] at heq
    simp at heq

theorem unescapeLoop_trailing_fesc (q : List Nat) (h : FESC ∉ q) :
    unescapeLoop (q ++ [FESC]) = unescapeLoop q := by
  have hd := dropWhile_ne_point FESC q [] h
  have ht := takeWhile_ne_point FESC q [] h
  rw [unescapeLoop]
  split
  · rename_i heq
    rw [hd] at heq
    simp at heq
  · rename_i head tail heq
    rw [hd] at heq
    cases heq
    simp only [ht]

theorem unescapeLoop_step_repl (q : List Nat) (x r : Nat) (rest : List Nat)
    (h : FESC ∉ q) (hx : replacementMap x = some r) :
    unescapeLoop (q ++ FESC :: x :: rest) = unescapeLoop (q ++ r :: rest) := by
  have hd := dropWhile_ne_point FESC q (x :: rest) h
  have ht := takeWhile_ne_point FESC q (x :: rest) h
  rw [unescapeLoop]
  split
  · rename_i heq
    rw [hd] at heq
    simp at heq
  · rename_i head tail heq
    rw [hd] at heq
    cases heq
    simp only [ht, hx]

theorem unescapeLoop_step_drop (q : List Nat) (x : Nat) (rest : List Nat)
    (h : FESC ∉ q) (hx : replacementMap x = none) :
    unescapeLoop (q ++ FESC :: x :: rest) = unescapeLoop (q ++ rest) := by
  have hd := dropWhile_ne_point FESC q (x :: rest) h
  have ht := takeWhile_ne_point FESC q (x :: rest) h
  rw [unescapeLoop]
  split
  · rename_i heq
    rw [hd] at heq
    simp at heq
  · rename_i head tail heq
    rw [hd] at heq
    cases heq
    simp only [ht, hx]

/-- A FESC-free prefix is never touched by the escape-replacement loop:
every iteration operates at or after the first occurrence of `FESC`. -/
theorem unescapeLoop_append (pre : List Nat) (h : FESC ∉ pre) :
    ∀ l, unescapeLoop (pre ++ l) = pre ++ unescapeLoop l := by
  suffices H : ∀ n l, l.length = n → unescapeLoop (pre ++ l) = pre ++ unescapeLoop l by
    intro l
    exact H l.length l rfl
  intro n
  induction n using Nat.strong_induction_on with
  | _ n ih =>
    intro l hlen
    by_cases hmem : FESC ∈ l
    · obtain ⟨t, d, hl, htf⟩ := first_byte_split FESC l hmem
      have hpt : FESC ∉ pre ++ t := by
        simp only [List.mem_append]
        rintro (hc | hc)
        · exact h hc
        · exact htf hc
      subst hl
      cases d with
      | nil =>
        rw [← List.append_assoc]
        rw [unescapeLoop_trailing_fesc (pre ++ t) hpt]
        rw [unescapeLoop_trailing_fesc t htf]
        exact ih t.length (by simp at hlen; omega) t rfl
      | cons x rest2 =>
        cases hx : replacementMap x with
        | some r =>
          rw [← List.append_assoc]
          rw [unescapeLoop_step_repl (pre ++ t) x r rest2 hpt hx]
          rw [unescapeLoop_step_repl t x r rest2 htf hx]
          rw [List.append_assoc]
          exact ih (t ++ r :: rest2).length (by simp at hlen ⊢; omega) (t ++ r :: rest2) rfl
        | none =>
          rw [← List.append_assoc]
          rw [unescapeLoop_step_drop (pre ++ t) x rest2 hpt hx]
          rw [unescapeLoop_step_drop t x rest2 htf hx]
          rw [List.append_assoc]
          exact ih (t ++ rest2).length (by simp at hlen ⊢; omega) (t ++ rest2) rfl
    · rw [unescapeLoop_of_no_fesc l hmem, unescapeLoop_of_no_fesc (pre ++ l) (by
        simp only [List.mem_append]
        rintro (hc | hc)
        · exact h hc
        · exact hmem hc)]

/-! Unfolding facts for the frame-splitting loop. -/

theorem runLoop_no_fend (u : Option (List Nat)) (received : List Nat) (h : FEND ∉ received) :
    runLoop u received = ([], if received.isEmpty then u else some received) := by
  have hd := dropWhile_ne_nil FEND received h
  rw [runLoop]
  split
  · rfl
  · rename_i head post heq
    rw [hd] at heq
    simp at heq

theorem runLoop_fend_cons (u : Option (List Nat)) (post : List Nat) :
    runLoop u (FEND :: post) = runLoop u post := by
  have hd : (FEND :: post).dropWhile (fun b => decide (b ≠ FEND)) = FEND :: post := by
    simp
  have ht : (FEND :: post).takeWhile (fun b => decide (b ≠ FEND)) = [] := by
    simp
  rw [runLoop]
  split
  · rename_i heq
    rw [hd] at heq
    simp at heq
  · rename_i head tail heq
    rw [hd] at heq
    cases heq
    simp only [ht]
    rfl

theorem runLoop_emit (u : Option (List Nat)) (pre post : List Nat)
    (h : FEND ∉ pre) (hne : pre ≠ []) :
    runLoop u (pre ++ FEND :: post) =
      ((match u with | some ub => ub ++ pre | none => pre) :: (runLoop none post).1,
        (runLoop none post).2) := by
  have hd := dropWhile_ne_point FEND pre post h
  have ht := takeWhile_ne_point FEND pre post h
  have hie : pre.isEmpty = false := by
    cases pre
    · exact absurd rfl hne
    · rfl
  rw [runLoop]
  split
  · rename_i heq
    rw [hd] at heq
    simp at heq
  · rename_i head tail heq
    rw [hd] at heq
    cases heq
    simp only [ht, hie]
    cases u <;> simp

/-! Arithmetic of the hexadecimal command bytes. -/

theorem ports_getD_val (p : Nat) (hp : p < 16) : hexDigitVal (ports.getD p '0') = p := by
  interval_cases p <;> decide

theorem commandByteFor_eq (p : Nat) (digit : Char) (hp : p < 16) :
    commandByteFor p digit = 16 * p + hexDigitVal digit := by
  unfold commandByteFor parseHex2
  rw [ports_getD_val p hp]

/-! Settling the claims. -/

/-- Claim C1.  The claim states that unescaping the result of escaping any
byte sequence yields the original sequence, including sequences containing
0xDB.  The code refutes it: escaping the one-byte payload `[0xDB]` gives
`[0xDB, 0xDD]`, and the escape-replacement loop of `interpretMessage` maps
that back to `[]`, not `[0xDB]` — after substituting `0xDB` for the pair,
`content.indexOf(FESC)` starts again from index 0, re-reads the substituted
`0xDB` as a fresh escape marker, and drops it.  This contradicts the code's
own documentation ("Properly escaped bytes will be replaced") and the
package README round-trip examples, so the claim is recorded as a code bug,
witnessed by this evaluation of the code at the failing input. -/
theorem c1_roundtrip_fails_on_fesc :
    kissEscape [FESC] = [FESC, TFESC] ∧
    unescapeLoop (kissEscape [FESC]) = [] ∧
    ([] : List Nat) ≠ [FESC] := by
  refine ⟨by decide, ?_, by decide⟩
  have h0 : kissEscape [FESC] = [FESC, TFESC] := by decide
  rw [h0]
  have e1 := unescapeLoop_step_repl [] TFESC FESC [] (by simp) (by decide)
  have e2 := unescapeLoop_trailing_fesc [] (by simp)
  have e3 := unescapeLoop_of_no_fesc [] (by simp)
  simp only [List.nil_append] at e1 e2 e3
  rw [e1]
  calc unescapeLoop [FESC] = unescapeLoop ([] ++ [FESC]) := by simp
    _ = [] := by rw [unescapeLoop_trailing_fesc [] (by simp)]; exact e3

/-- Claim C3.  The claim states that `KISSSender` construction throws when
`portIndex` is absent.  The code refutes it: `opts.portIndex || 0` turns an
absent `portIndex` into `0`, which passes both the `Number.isInteger` check
and the range check, so construction succeeds with port 0 (and the error
message "without a portIndex config property" can never fire for an absent
property) — contradicting the README's "portIndex is required" and the
code's own error message.  Recorded as a code bug; this theorem evaluates
the constructor at the failing input, an options object with no `portIndex`
property. -/
theorem c3_absent_port_succeeds :
    senderConstruct JSPortValue.absent = Except.ok 0 ∧
    kissSenderInit JSPortValue.absent {} = Except.ok (0, []) := by
  exact ⟨rfl, rfl⟩

/-- Claim C5.  Each single write through `KISSSender._transform` produces
exactly one frame: the boundary marker, then the data command byte
`portIndex << 4 | 0` (here `16 * p`, built by `parseInt` from the hex digit
pair), then the escaped payload, then the marker. -/
theorem c5_data_frame (p : Nat) (payload : List Nat) (hp : p < 16) :
    senderTransform p payload = FEND :: (16 * p) :: (kissEscape payload ++ [FEND]) := by
  unfold senderTransform dataStart dataEnd
  have h := commandByteFor_eq p '0' hp
  unfold commandByteFor at h
  rw [h]
  have h0 : hexDigitVal '0' = 0 := by decide
  rw [h0]
  simp

/-- Witness for C5 at the claim's concrete input: writing `[0xC0, 0xDB]`
with `portIndex: 12` emits `[0xC0, 0xC0, 0xDB, 0xDC, 0xDB, 0xDD, 0xC0]`. -/
theorem c5_data_frame_witness :
    12 < 16 ∧ senderTransform 12 [192, 219] = [192, 192, 219, 220, 219, 221, 192] := by
  refine ⟨by decide, ?_⟩
  rw [c5_data_frame 12 [192, 219] (by decide)]
  decide

/-- Claim C7 counterexample.  The claim quantifies over EVERY message whose
content contains the escape marker followed by a byte that is neither
`TFEND` nor `TFESC`.  For content `[0xDB, 0xDD, 0xDB, 0x42]` the malformed
escape is the pair `0xDB 0x42` at positions 2-3 (the leading `0xDB` is
followed by the recognized code `0xDD`); under the claim those two bytes are
dropped and the rest decodes normally, giving `[0xDB]` from the well-formed
leading pair.  The code instead substitutes `0xDB` for the leading pair,
restarts `indexOf` from index 0, pairs the substituted byte with the
NEXT original `0xDB`, drops that pair as malformed, and outputs `[0x42]`:
the byte following the malformed escape marker is not dropped, and the
decoded `0xDB` of the well-formed pair vanishes. -/
theorem c7_malformed_escape_counterexample :
    unescapeLoop [FESC, TFESC, FESC, 66] = [66] ∧
    interpretMessage (mkReceiver {}) [160, FESC, TFESC, FESC, 66] = Emitted.buf [66] ∧
    ([66] : List Nat) ≠ [FESC] := by
  have e1 := unescapeLoop_step_repl [] TFESC FESC [FESC, 66] (by simp) (by decide)
  have e2 := unescapeLoop_step_drop [] FESC [66] (by simp) (by decide)
  have e3 := unescapeLoop_of_no_fesc [66] (by decide)
  simp only [List.nil_append] at e1 e2
  have hu : unescapeLoop [FESC, TFESC, FESC, 66] = [66] := by
    rw [e1, e2, e3]
  refine ⟨hu, ?_, by decide⟩
  unfold interpretMessage mkReceiver
  simp only [List.tail_cons, hu]
  rfl

/-- Claim C7, amended.  When the FIRST escape marker occurring in the
content (hypothesis `FESC ∉ pre`) is followed by a byte that is neither
`TFEND` nor `TFESC`, `interpretMessage` drops both bytes of the malformed
pair and continues decoding the rest of the content, with the escape-free
prefix passing through unchanged; the model is a total function, matching
the absence of any `throw` in the decode path, so no error is ever raised.
When the malformed escape is preceded by earlier escape sequences this
dropped-pair description fails — see the counterexample: the loop's rescan
from index 0 can pair a substituted byte with a later escape marker, and
the byte after the malformed marker can survive.  Stated both for the
escape-replacement loop itself and for `interpretMessage` under every
configuration: the message decodes exactly like the same message with the
malformed pair deleted. -/
theorem c7_malformed_escape_dropped (pre : List Nat) (x : Nat) (rest : List Nat)
    (hpre : FESC ∉ pre) (hx1 : x ≠ TFEND) (hx2 : x ≠ TFESC) :
    unescapeLoop (pre ++ FESC :: x :: rest) = pre ++ unescapeLoop rest ∧
    ∀ r cb, interpretMessage r (cb :: (pre ++ FESC :: x :: rest)) =
      interpretMessage r (cb :: (pre ++ rest)) := by
  have hrm : replacementMap x = none := by
    unfold replacementMap
    rw [if_neg hx1, if_neg hx2]
  have h1 := unescapeLoop_step_drop pre x rest hpre hrm
  refine ⟨?_, ?_⟩
  · rw [h1, unescapeLoop_append pre hpre rest]
  · intro r cb
    unfold interpretMessage
    simp only [List.tail_cons, List.headD_cons, h1]

/-- Witness for C7: content `[0x41, 0xDB, 0x42, 0x43]` decodes to
`[0x41, 0x43]` — the malformed pair `0xDB 0x42` is dropped. -/
theorem c7_malformed_escape_witness : unescapeLoop [65, 219, 66, 67] = [65, 67] := by
  have h := (c7_malformed_escape_dropped [65] 66 [67] (by decide) (by decide) (by decide)).1
  rw [unescapeLoop_of_no_fesc [67] (by decide)] at h
  simpa [FESC] using h

/-- Claim C9.  With `emitObject` truthy the receiver is constructed with
`readableObjectMode` set, and `interpretMessage` then returns the record
with `portIndex = commandByte >> 4` (here `/ 16`) and `data` the content
after the escape-replacement loop, regardless of `emitCommandByte` (object
mode is tested first, so it takes precedence). -/
theorem c9_emit_object (ecb : Bool) (p k : Nat) (content : List Nat)
    (hp : p < 16) (hk : k < 16) :
    interpretMessage (mkReceiver { emitCommandByte := ecb, emitObject := true })
        ((16 * p + k) :: content) =
      Emitted.obj p (unescapeLoop content) := by
  unfold interpretMessage mkReceiver
  simp only [if_pos]
  have : (16 * p + k) / 16 = p := by
    rw [Nat.mul_add_div (by norm_num), Nat.div_eq_of_lt hk]
    omega
  simp [this]

/-- Witness for C9: command byte `0x50` (port 5, data command) in object
mode with `emitCommandByte` also set yields port index 5 and the bare
content. -/
theorem c9_emit_object_witness :
    interpretMessage (mkReceiver { emitCommandByte := true, emitObject := true }) [80, 65] =
      Emitted.obj 5 [65] := by
  have h := c9_emit_object true 5 0 [65] (by decide) (by decide)
  rw [unescapeLoop_of_no_fesc [65] (by decide)] at h
  simpa using h

/-- Claim C6.  A sender constructed with `portIndex: 12, slotTime: 420`
pushes, during construction (hence before any data frame can pass through
`_transform`), exactly the initialization frame `[0xC0, 0xC3, 0x2A, 0xC0]`;
in general each of the three time fields `slotTime`, `txDelay`, `txTail` is
transmitted as the supplied value divided by 10 (command nibbles 3, 1 and 4
respectively), and a zero (falsy) time value produces no initialization
frame at all. -/
theorem c6_time_init_frames :
    kissSenderInit (JSPortValue.intVal 12) { slotTime := some 420 } =
      Except.ok (12, [[192, 195, 42, 192]]) ∧
    (∀ p t, p < 16 → initFrames p { slotTime := some t } =
      if t = 0 then [] else [[FEND, 16 * p + 3, t / 10 % 256, FEND]]) ∧
    (∀ p t, p < 16 → initFrames p { txDelay := some t } =
      if t = 0 then [] else [[FEND, 16 * p + 1, t / 10 % 256, FEND]]) ∧
    (∀ p t, p < 16 → initFrames p { txTail := some t } =
      if t = 0 then [] else [[FEND, 16 * p + 4, t / 10 % 256, FEND]]) := by
  refine ⟨?_, ?_, ?_, ?_⟩
  · rfl
  all_goals
    intro p t hp
    by_cases ht : t = 0
    · simp [initFrames, ht]
    · simp only [initFrames, outboundCommand, commandByteFor_eq p _ hp, if_neg ht]
      simp [hexDigitVal, ht]

/-- Witness for C6: a sender on port 5 with `txDelay: 100` emits the single
initialization frame `[0xC0, 0x51, 0x0A, 0xC0]`; with `txDelay: 0` it emits
none. -/
theorem c6_time_init_frames_witness :
    initFrames 5 { txDelay := some 100 } = [[192, 81, 10, 192]] ∧
    initFrames 5 { txDelay := some 0 } = [] := by
  constructor
  · have h := c6_time_init_frames.2.2.1 5 100 (by decide)
    simpa using h
  · have h := c6_time_init_frames.2.2.1 5 0 (by decide)
    simpa using h

/-- Claim C10.  No range check is applied to `persistence`: construction
with `persistence: 300` succeeds, and `Buffer.from` reduces the single
value byte modulo 256, so the emitted frame carries `300 % 256 = 44`
(`0x2C`).  Stated generally for any port and any non-zero value, plus the
concrete evaluation at `portIndex: 12, persistence: 300`. -/
theorem c10_persistence_no_range_check :
    kissSenderInit (JSPortValue.intVal 12) { persistence := some 300 } =
      Except.ok (12, [[192, 194, 44, 192]]) ∧
    (∀ p n, p < 16 → n ≠ 0 → initFrames p { persistence := some n } =
      [[FEND, 16 * p + 2, n % 256, FEND]]) := by
  constructor
  · rfl
  · intro p n hp hn
    simp only [initFrames, outboundCommand, commandByteFor_eq p _ hp, if_neg hn]
    simp [hexDigitVal, hn]

/-- Witness for C10: port 3, persistence 300 gives value byte 44. -/
theorem c10_persistence_witness :
    initFrames 3 { persistence := some 300 } = [[192, 50, 44, 192]] := by
  have h := c10_persistence_no_range_check.2 3 300 (by decide) (by decide)
  simpa using h

/-- Claim C4 counterexample.  The claim says `_flush` produces its final
message "by the same interpretation rule as mid-stream messages", with the
remaining bytes unescaped.  It does not: `_flush` pushes the buffered bytes
verbatim, skipping the escape-replacement loop.  With the buffered run
`[0xA0, 0xDB, 0xDC]` (command byte `0xA0`, then the escape sequence for
`0xC0`), `_flush` in default mode pushes `[0xDB, 0xDC]`, while
`interpretMessage` on the same run yields `[0xC0]`. -/
theorem c4_flush_counterexample :
    flushStep (mkReceiver {}) (some [160, 219, 220]) ≠
      [interpretMessage (mkReceiver {}) [160, 219, 220]] := by
  have e1 := unescapeLoop_step_repl [] 220 192 [] (by simp) (by decide)
  simp only [List.nil_append, FESC] at e1
  rw [unescapeLoop_of_no_fesc [192] (by decide)] at e1
  simp [flushStep, mkReceiver, interpretMessage, e1]

/-- Claim C4, amended.  When the stream ends with a non-empty partial
buffer, `_flush` emits exactly one final message whose shape follows the
configuration exactly as mid-stream (`emitObject` record with
`portIndex = firstByte >> 4`, `emitCommandByte` keeps the first byte,
default drops it), but the buffered content bytes are pushed verbatim,
without the escape-replacement loop; consequently the flushed message
coincides with `interpretMessage` of the buffered run precisely when the
content after the command byte contains no escape marker. -/
theorem c4_flush_shape (r : Receiver) (u : List Nat) (hne : u ≠ [])
    (h : FESC ∉ u.tail) :
    flushStep r (some u) = [interpretMessage r u] := by
  cases u with
  | nil => exact absurd rfl hne
  | cons a t =>
    simp only [List.tail_cons] at h
    unfold flushStep interpretMessage
    simp only [List.tail_cons, List.headD_cons, unescapeLoop_of_no_fesc t h]
    by_cases h1 : r.readableObjectMode <;> by_cases h2 : r.emitCommandByte <;>
      simp [h1, h2]

/-- Witness for the amended C4: an escape-free buffered run flushes to the
same single message that `interpretMessage` produces. -/
theorem c4_flush_shape_witness :
    flushStep (mkReceiver {}) (some [160, 104, 105]) =
      [interpretMessage (mkReceiver {}) [160, 104, 105]] :=
  c4_flush_shape (mkReceiver {}) [160, 104, 105] (by decide) (by decide)

/-! Infrastructure for claim C8: the frame-splitting loop never emits an
empty run, and inserting an extra adjacent boundary marker changes
nothing. -/

theorem runLoop_nonempty :
    ∀ n received, received.length = n → ∀ u, u ≠ some ([] : List Nat) →
      (∀ m ∈ (runLoop u received).1, m ≠ []) ∧ (runLoop u received).2 ≠ some [] := by
  intro n
  induction n using Nat.strong_induction_on with
  | _ n ih =>
    intro received hlen u hu
    by_cases hmem : FEND ∈ received
    · obtain ⟨t, d, hr, htf⟩ := first_byte_split FEND received hmem
      subst hr
      by_cases htn : t = []
      · subst htn
        simp only [List.nil_append]
        rw [runLoop_fend_cons]
        exact ih d.length (by simp at hlen; omega) d rfl u hu
      · rw [runLoop_emit u t d htf htn]
        have hd := ih d.length (by simp at hlen; omega) d rfl none (by simp)
        constructor
        · intro m hm
          simp only [List.mem_cons] at hm
          rcases hm with hm | hm
          · subst hm
            cases u with
            | none => exact htn
            | some ub =>
              intro hc
              exact htn (List.append_eq_nil.mp hc).2
          · exact hd.1 m hm
        · exact hd.2
    · rw [runLoop_no_fend u received hmem]
      constructor
      · intro m hm
        simp at hm
      · cases received with
        | nil => simpa using hu
        | cons a t => simp

theorem runLoop_dup :
    ∀ n a, a.length = n → ∀ u b,
      runLoop u (a ++ FEND :: FEND :: b) = runLoop u (a ++ FEND :: b) := by
  intro n
  induction n using Nat.strong_induction_on with
  | _ n ih =>
    intro a hlen u b
    by_cases hmem : FEND ∈ a
    · obtain ⟨t, d, ha, htf⟩ := first_byte_split FEND a hmem
      subst ha
      by_cases htn : t = []
      · subst htn
        simp only [List.nil_append, List.cons_append]
        rw [runLoop_fend_cons, runLoop_fend_cons]
        exact ih d.length (by simp at hlen; omega) d rfl u b
      · rw [List.append_assoc, List.append_assoc]
        simp only [List.cons_append]
        rw [runLoop_emit u t _ htf htn, runLoop_emit u t _ htf htn]
        rw [ih d.length (by simp at hlen; omega) d rfl none b]
    · by_cases han : a = []
      · subst han
        simp only [List.nil_append]
        rw [runLoop_fend_cons, runLoop_fend_cons]
      · rw [runLoop_emit u a (FEND :: b) hmem han, runLoop_emit u a b hmem han]
        rw [runLoop_fend_cons]

theorem transformMsgs_dup (u : Option (List Nat)) (a b : List Nat) :
    transformMsgs u (a ++ FEND :: FEND :: b) = transformMsgs u (a ++ FEND :: b) := by
  cases u with
  | none =>
    simp only [transformMsgs]
    exact runLoop_dup a.length a rfl none b
  | some uu =>
    simp only [transformMsgs]
    have hh : (a ++ FEND :: FEND :: b).head? = (a ++ FEND :: b).head? := by
      cases a <;> simp
    rw [hh, runLoop_dup a.length a rfl none b, runLoop_dup a.length a rfl (some uu) b]

/-- The decoder state invariant: starting from `none` (a fresh receiver),
`unterminatedMessage` is never the empty array, because the loop only ever
stores a non-empty remainder. -/
theorem transformMsgs_state_nonempty (st : Option (List Nat)) (hst : st ≠ some [])
    (chunk : List Nat) : (transformMsgs st chunk).2 ≠ some [] := by
  cases st with
  | none =>
    simp only [transformMsgs]
    exact (runLoop_nonempty chunk.length chunk rfl none (by simp)).2
  | some u =>
    simp only [transformMsgs]
    by_cases hh : chunk.head? = some FEND
    · rw [if_pos hh]
      exact (runLoop_nonempty chunk.length chunk rfl none (by simp)).2
    · rw [if_neg hh]
      exact (runLoop_nonempty chunk.length chunk rfl (some u) hst).2

/-- Claim C8.  Adjacent boundary markers never produce an emitted message
and are never surfaced as an error: every message a `_transform` call emits
is a non-empty run (an empty run between adjacent `FEND`s is skipped by the
`nextMessage.length > 0` guard), and inserting an extra `FEND` next to an
existing one anywhere in a chunk leaves both the emitted messages and the
decoder state unchanged.  The hypothesis `st ≠ some []` holds for every
reachable state: the initial state is `none` and the loop only ever stores
a non-empty remainder. -/
theorem c8_adjacent_markers (st : Option (List Nat)) (hst : st ≠ some []) :
    (∀ chunk m, m ∈ (transformMsgs st chunk).1 → m ≠ []) ∧
    (∀ a b, transformMsgs st (a ++ FEND :: FEND :: b) =
      transformMsgs st (a ++ FEND :: b)) := by
  constructor
  · intro chunk m hm
    cases st with
    | none =>
      simp only [transformMsgs] at hm
      exact (runLoop_nonempty chunk.length chunk rfl none (by simp)).1 m hm
    | some u =>
      have hune : u ≠ [] := fun hc => hst (by rw [hc])
      simp only [transformMsgs] at hm
      by_cases hh : chunk.head? = some FEND
      · rw [if_pos hh] at hm
        simp only [List.mem_cons] at hm
        rcases hm with hm | hm
        · subst hm
          exact hune
        · exact (runLoop_nonempty chunk.length chunk rfl none (by simp)).1 m hm
      · rw [if_neg hh] at hm
        exact (runLoop_nonempty chunk.length chunk rfl (some u) hst).1 m hm
  · intro a b
    exact transformMsgs_dup st a b

/-- Witness for C8 at the initial decoder state and a concrete chunk. -/
theorem c8_adjacent_markers_witness :
    (none : Option (List Nat)) ≠ some [] ∧
    transformMsgs none ([65] ++ FEND :: FEND :: [66]) =
      transformMsgs none ([65] ++ FEND :: [66]) := by
  refine ⟨by simp, ?_⟩
  exact (c8_adjacent_markers none (by simp)).2 [65] [66]

/-- Claim C2.  The claim states that decoding is invariant under splitting
the input at chunk boundaries because trailing bytes extend (rather than
replace) an existing partial buffer, so the three `_transform` calls
`[0xC0, 0xA0]`, `'hello'`, `[0xC0]` should emit one message equal to the
bytes of `'hello'`.  The code refutes it: line 154
(`this.unterminatedMessage = received`) REPLACES the pending buffer `[0xA0]`
with the bytes of `'hello'` when a chunk contains no boundary marker, so the
byte `'h'` is later consumed as the command byte and the decoder emits the
bytes of `'ello'`.  This contradicts the package README, which documents
exactly such a split-frame sequence emitting the full payload, so the claim
is recorded as a code bug; this theorem evaluates the model at the failing
input. -/
theorem c2_split_chunks_lose_buffer :
    (receiverRun (mkReceiver {}) [[FEND, 160], [104, 101, 108, 108, 111], [FEND]]).1 =
      [Emitted.buf [101, 108, 108, 111]] ∧
    [Emitted.buf [101, 108, 108, 111]] ≠ [Emitted.buf [104, 101, 108, 108, 111]] := by
  refine ⟨?_, by decide⟩
  have t1 : transformMsgs none [FEND, 160] = ([], some [160]) := by
    show runLoop none [FEND, 160] = ([], some [160])
    rw [runLoop_fend_cons none [160], runLoop_no_fend none [160] (by decide)]
    rfl
  have t2 : transformMsgs (some [160]) [104, 101, 108, 108, 111] =
      ([], some [104, 101, 108, 108, 111]) := by
    simp only [transformMsgs]
    rw [if_neg (by decide)]
    rw [runLoop_no_fend (some [160]) [104, 101, 108, 108, 111] (by decide)]
    rfl
  have t3 : transformMsgs (some [104, 101, 108, 108, 111]) [FEND] =
      ([[104, 101, 108, 108, 111]], none) := by
    simp only [transformMsgs]
    rw [if_pos (by decide)]
    rw [runLoop_fend_cons none [], runLoop_no_fend none [] (by decide)]
    rfl
  have hu : unescapeLoop [101, 108, 108, 111] = [101, 108, 108, 111] :=
    unescapeLoop_of_no_fesc [101, 108, 108, 111] (by decide)
  unfold receiverRun transformStep
  simp only [List.foldl, t1, List.map_nil, List.append_nil, List.nil_append]
  simp only [t2, List.map_nil, List.append_nil]
  simp only [t3, List.map_cons, List.map_nil]
  simp [interpretMessage, mkReceiver, hu]

end KissTnc
